import Mathlib

/-!
Verification of the Stake / StakesCollection core of the `mlw-rust`
repository against its natural-language specification.

The Rust sources are shallowly embedded as executable Lean definitions:

* `u32` values become `Nat`; the one place where overflow matters
  (`StakesCollection::generate_id`, which performs an unchecked `+= 1` on the
  wrapped `u32`) takes an explicit `% 2^32`, and the serde `u32` decoder
  checks the `0 ≤ n < 2^32` range exactly as `serde_json` does.
* `chrono::DateTime<Utc>` is a point in time; it is modelled by its integer
  tick value (`Int`).  chrono's serde support renders a timestamp as an
  RFC3339 string and parses it back exactly (to the precision encoded); that
  codec is modelled by the corresponding injective embedding of the tick
  value into a JSON number.
* `&mut self` methods become functions returning the updated collection
  (paired with the method's return value where there is one).
* the JSON documents produced and consumed by the custom serde
  implementations are modelled by an explicit `Json` tree whose objects are
  ordered key/value lists (`serde_json` hands map entries to a visitor in
  document order, duplicates included, which is what the custom
  `visit_map` loop observes).
-/

/-- Size of the `u32` value space: `StakeId` wraps a `u32`. -/
def u32Mod : Nat := 4294967296

/-- Rust `StakeId(pub u32)`: a newtype around the raw id value. -/
structure StakeId where
  val : Nat
deriving Repr, DecidableEq

/-- Rust `enum StakeError`.  The `StakeNotFound` variant is the NotFound
condition returned by `update_stake`; it is named and consumed throughout
`mlw.rs` (`update_area`, `mark_area_complete`, …). -/
inductive StakeError where
  | CannotActivateDroppedStake
  | StakeNotFound
deriving Repr, DecidableEq

/-- Rust `struct Stake` with its fields in declaration order.  Timestamps are
modelled by integer tick values (see the module docstring). -/
structure Stake where
  stake_id : StakeId
  stake_name : String
  parent_id : Option StakeId
  complete : Bool
  dropped : Bool
  note : Option String
  date_modified : Int
  date_created : Int
deriving Repr, DecidableEq

/-- Rust `Stake::is_active`: `!self.dropped && !self.complete`. -/
def Stake.is_active (s : Stake) : Bool :=
  !s.dropped && !s.complete

/-- Rust `struct StakesCollection { stakes: Vec<Stake>, next_id: StakeId }`. -/
structure StakesCollection where
  stakes : List Stake
  next_id : StakeId
deriving Repr, DecidableEq

/-- Rust `StakesCollection::new`: empty list, counter starts at 1. -/
def StakesCollection.new : StakesCollection :=
  { stakes := [], next_id := ⟨1⟩ }

/-- Rust `StakesCollection::add_stake`: `self.stakes.push(stake)`. -/
def StakesCollection.add_stake (c : StakesCollection) (s : Stake) : StakesCollection :=
  { c with stakes := c.stakes ++ [s] }

/-- Rust `StakesCollection::len`. -/
def StakesCollection.len (c : StakesCollection) : Nat :=
  c.stakes.length

/-- Rust `StakesCollection::is_empty`. -/
def StakesCollection.is_empty (c : StakesCollection) : Bool :=
  c.stakes.isEmpty

/-- Rust `StakesCollection::get_by_id`: `self.stakes.iter().find(|stake| &stake.stake_id == id)`. -/
def StakesCollection.get_by_id (c : StakesCollection) (id : StakeId) : Option Stake :=
  c.stakes.find? (fun stake => decide (stake.stake_id = id))

/-- Rust `StakesCollection::active_stakes`: filter by `is_active`. -/
def StakesCollection.active_stakes (c : StakesCollection) : List Stake :=
  c.stakes.filter (fun s => s.is_active)

/-- Rust `StakesCollection::completed_stakes`: filter by the `complete` flag. -/
def StakesCollection.completed_stakes (c : StakesCollection) : List Stake :=
  c.stakes.filter (fun s => s.complete)

/-- Rust `StakesCollection::generate_id`: returns the current `next_id` and
increments the wrapped `u32` counter with an unchecked `+= 1` (wrapping
arithmetic, hence the explicit `% 2^32`). -/
def StakesCollection.generate_id (c : StakesCollection) : StakeId × StakesCollection :=
  (c.next_id, { c with next_id := ⟨(c.next_id.val + 1) % u32Mod⟩ })

/-- Rust `StakesCollection::get_children`: all stakes whose `parent_id` is
`Some` of the given id, in collection order. -/
def StakesCollection.get_children (c : StakesCollection) (parent_id : StakeId) : List Stake :=
  c.stakes.filter (fun stake => decide (stake.parent_id = some parent_id))

/-- ASCII model of Rust `str::to_lowercase` applied characterwise. -/
def lowerChars (l : List Char) : List Char :=
  l.map Char.toLower

/-- Model of Rust `str::trim`: drop whitespace from both ends. -/
def trimChars (l : List Char) : List Char :=
  ((l.dropWhile Char.isWhitespace).reverse.dropWhile Char.isWhitespace).reverse

/-- Model of matching Rust `str::starts_with`: the first list begins with the
second one. -/
def leadsWith : List Char → List Char → Bool
  | _, [] => true
  | [], _ :: _ => false
  | a :: hay, b :: needle => decide (a = b) && leadsWith hay needle

/-- Model of Rust `str::contains(&str)`: the needle occurs as a contiguous
substring of the haystack. -/
def occursIn (needle : List Char) : List Char → Bool
  | [] => leadsWith [] needle
  | c :: hay => leadsWith (c :: hay) needle || occursIn needle hay

/-- Rust `StakesCollection::search_by_name`: trim and lowercase the query;
an empty (post-trim) query returns every stake, otherwise keep the stakes
whose lowercased name contains the query as a substring. -/
def StakesCollection.search_by_name (c : StakesCollection) (query : String) : List Stake :=
  let lower_query := lowerChars (trimChars query.data)
  if lower_query.isEmpty then
    c.stakes
  else
    c.stakes.filter (fun stake => occursIn lower_query (lowerChars stake.stake_name.data))

/-- Replace the first list element whose `stake_id` equals the id of the
given stake, keeping its position; `none` when no element matches. -/
def replaceFirstById : List Stake → Stake → Option (List Stake)
  | [], _ => none
  | t :: ts, s =>
    if t.stake_id = s.stake_id then
      some (s :: ts)
    else
      match replaceFirstById ts s with
      | some ts2 => some (t :: ts2)
      | none => none

/-- Modelled from the spec: `StakesCollection::update_stake` is declared and
called throughout `mlw.rs` (`update_area`, `mark_area_complete`, …) but its
body is absent from the sources.  Per the spec it "replaces the stored Stake
with matching `id` by the given value in place (preserving position), failing
with a NotFound condition if no Stake with that `id` exists".  The pair holds
the method's `Result` and the collection after the call. -/
def StakesCollection.update_stake (c : StakesCollection) (s : Stake) :
    Except StakeError Unit × StakesCollection :=
  match replaceFirstById c.stakes s with
  | some l => (Except.ok (), { c with stakes := l })
  | none => (Except.error StakeError.StakeNotFound, c)

/-- JSON document tree.  Objects are ordered key/value lists: `serde_json`
feeds map entries to the custom `visit_map` loop in document order, with
duplicate keys delivered as separate entries. -/
inductive Json where
  | null : Json
  | bool : Bool → Json
  | num : Int → Json
  | str : String → Json
  | arr : List Json → Json
  | obj : List (String × Json) → Json
deriving Repr

/-- Decode errors raised by the custom `Deserialize` implementation, mirroring
the `serde::de::Error` constructors used in the source (`unknown_field`,
`duplicate_field`, `missing_field`) plus the type errors serde itself raises
when a value has the wrong shape. -/
inductive DecError where
  | unknownField : String → DecError
  | duplicateField : String → DecError
  | missingField : String → DecError
  | invalidType : DecError
deriving Repr, DecidableEq

/-- serde encoding of a `u32` (such as the raw value inside `StakeId`). -/
def encodeU32 (n : Nat) : Json :=
  Json.num n

/-- serde decoding of a `u32`: a JSON number in the `u32` range. -/
def decodeU32 : Json → Except DecError Nat
  | Json.num i => if 0 ≤ i ∧ i < (u32Mod : Int) then Except.ok i.toNat else Except.error DecError.invalidType
  | _ => Except.error DecError.invalidType

/-- serde decoding of a `String`. -/
def decodeStr : Json → Except DecError String
  | Json.str s => Except.ok s
  | _ => Except.error DecError.invalidType

/-- serde decoding of a `bool`. -/
def decodeBool : Json → Except DecError Bool
  | Json.bool b => Except.ok b
  | _ => Except.error DecError.invalidType

/-- Codec model for `chrono::DateTime<Utc>` (see the module docstring): the
tick value embedded as a JSON number. -/
def encodeTs (t : Int) : Json :=
  Json.num t

/-- Decoding model for `chrono::DateTime<Utc>`: reads the tick value back. -/
def decodeTs : Json → Except DecError Int
  | Json.num i => Except.ok i
  | _ => Except.error DecError.invalidType

/-- serde encoding of `Option<StakeId>`: `null` for `None`, the bare integer
for `Some` (newtype structs serialize transparently). -/
def encodeOptId : Option StakeId → Json
  | none => Json.null
  | some p => Json.num p.val

/-- serde decoding of `Option<u32>`-shaped values: `null` is `None`, anything
else must decode as the inner `u32`. -/
def decodeOptU32 : Json → Except DecError (Option Nat)
  | Json.null => Except.ok none
  | j =>
    match decodeU32 j with
    | Except.ok n => Except.ok (some n)
    | Except.error e => Except.error e

/-- serde encoding of `Option<String>`: `null` for `None`, the string for `Some`. -/
def encodeOptStr : Option String → Json
  | none => Json.null
  | some s => Json.str s

/-- serde decoding of `Option<String>`. -/
def decodeOptStr : Json → Except DecError (Option String)
  | Json.null => Except.ok none
  | j =>
    match decodeStr j with
    | Except.ok s => Except.ok (some s)
    | Except.error e => Except.error e

/-- Derived `Serialize` for `Stake`: a struct map with the fields in
declaration order. -/
def encodeStake (s : Stake) : Json :=
  Json.obj
    [("stake_id", encodeU32 s.stake_id.val),
     ("stake_name", Json.str s.stake_name),
     ("parent_id", encodeOptId s.parent_id),
     ("complete", Json.bool s.complete),
     ("dropped", Json.bool s.dropped),
     ("note", encodeOptStr s.note),
     ("date_modified", encodeTs s.date_modified),
     ("date_created", encodeTs s.date_created)]

/-- Partial field record built while a derived `Deserialize` for `Stake`
walks the entries of a struct map. -/
structure StakeBuild where
  f_stake_id : Option Nat := none
  f_stake_name : Option String := none
  f_parent_id : Option (Option Nat) := none
  f_complete : Option Bool := none
  f_dropped : Option Bool := none
  f_note : Option (Option String) := none
  f_date_modified : Option Int := none
  f_date_created : Option Int := none

/-- Entry loop of the derived `Deserialize` for `Stake`: each known field may
appear at most once (duplicates error), unknown keys are skipped (serde's
default for derived impls), values must decode at their field's type. -/
def stakeLoop : List (String × Json) → StakeBuild → Except DecError StakeBuild
  | [], st => Except.ok st
  | (k, v) :: rest, st =>
    if k = "stake_id" then
      match st.f_stake_id with
      | some _ => Except.error (DecError.duplicateField "stake_id")
      | none =>
        match decodeU32 v with
        | Except.error e => Except.error e
        | Except.ok n => stakeLoop rest { st with f_stake_id := some n }
    else if k = "stake_name" then
      match st.f_stake_name with
      | some _ => Except.error (DecError.duplicateField "stake_name")
      | none =>
        match decodeStr v with
        | Except.error e => Except.error e
        | Except.ok x => stakeLoop rest { st with f_stake_name := some x }
    else if k = "parent_id" then
      match st.f_parent_id with
      | some _ => Except.error (DecError.duplicateField "parent_id")
      | none =>
        match decodeOptU32 v with
        | Except.error e => Except.error e
        | Except.ok x => stakeLoop rest { st with f_parent_id := some x }
    else if k = "complete" then
      match st.f_complete with
      | some _ => Except.error (DecError.duplicateField "complete")
      | none =>
        match decodeBool v with
        | Except.error e => Except.error e
        | Except.ok x => stakeLoop rest { st with f_complete := some x }
    else if k = "dropped" then
      match st.f_dropped with
      | some _ => Except.error (DecError.duplicateField "dropped")
      | none =>
        match decodeBool v with
        | Except.error e => Except.error e
        | Except.ok x => stakeLoop rest { st with f_dropped := some x }
    else if k = "note" then
      match st.f_note with
      | some _ => Except.error (DecError.duplicateField "note")
      | none =>
        match decodeOptStr v with
        | Except.error e => Except.error e
        | Except.ok x => stakeLoop rest { st with f_note := some x }
    else if k = "date_modified" then
      match st.f_date_modified with
      | some _ => Except.error (DecError.duplicateField "date_modified")
      | none =>
        match decodeTs v with
        | Except.error e => Except.error e
        | Except.ok x => stakeLoop rest { st with f_date_modified := some x }
    else if k = "date_created" then
      match st.f_date_created with
      | some _ => Except.error (DecError.duplicateField "date_created")
      | none =>
        match decodeTs v with
        | Except.error e => Except.error e
        | Except.ok x => stakeLoop rest { st with f_date_created := some x }
    else
      stakeLoop rest st

/-- Final step of the derived `Deserialize` for `Stake`: every field must
have been seen.  serde reports the first missing field by name; no claim
inspects stake-level error payloads, so the eight missing-field errors are
collapsed into one. -/
def stakeFinalize (st : StakeBuild) : Except DecError Stake :=
  match st.f_stake_id, st.f_stake_name, st.f_parent_id, st.f_complete,
        st.f_dropped, st.f_note, st.f_date_modified, st.f_date_created with
  | some i, some nm, some pid, some cp, some dr, some nt, some dm, some dc =>
    Except.ok
      { stake_id := ⟨i⟩, stake_name := nm, parent_id := pid.map (fun p => ⟨p⟩),
        complete := cp, dropped := dr, note := nt,
        date_modified := dm, date_created := dc }
  | _, _, _, _, _, _, _, _ => Except.error (DecError.missingField "stake field")

/-- Derived `Deserialize` for `Stake`: run the entry loop over the struct
map, then assemble the entity. -/
def decodeStake : Json → Except DecError Stake
  | Json.obj entries =>
    (match stakeLoop entries {} with
     | Except.error e => Except.error e
     | Except.ok st => stakeFinalize st)
  | _ => Except.error DecError.invalidType

/-- serde decoding of `Vec<Stake>` from a JSON array's elements. -/
def decodeStakeList : List Json → Except DecError (List Stake)
  | [] => Except.ok []
  | j :: js =>
    match decodeStake j with
    | Except.error e => Except.error e
    | Except.ok s =>
      match decodeStakeList js with
      | Except.error e => Except.error e
      | Except.ok rest => Except.ok (s :: rest)

/-- serde decoding of `Vec<Stake>`: the value must be an array. -/
def decodeStakesArr : Json → Except DecError (List Stake)
  | Json.arr l => decodeStakeList l
  | _ => Except.error DecError.invalidType

/-- Custom `Serialize` for `StakesCollection`
(`stakes_collection.rs` lines 17-31): a two-entry map pairing the raw counter
value under `"nextId"` with the stake list under `"stakes"`. -/
def encodeCollection (c : StakesCollection) : Json :=
  Json.obj
    [("nextId", encodeU32 c.next_id.val),
     ("stakes", Json.arr (c.stakes.map encodeStake))]

/-- Entry loop of `StakesCollectionVisitor::visit_map`
(`stakes_collection.rs` lines 83-105): keys other than `nextId`/`stakes` are
rejected by the `FieldVisitor` (`unknown_field`), a repeated key is a
`duplicate_field` error checked before its value is decoded, and each value
must decode at its field's type. -/
def visitMapLoop : List (String × Json) → Option Nat → Option (List Stake) →
    Except DecError (Option Nat × Option (List Stake))
  | [], a, b => Except.ok (a, b)
  | (k, v) :: rest, a, b =>
    if k = "nextId" then
      match a with
      | some _ => Except.error (DecError.duplicateField "nextId")
      | none =>
        match decodeU32 v with
        | Except.error e => Except.error e
        | Except.ok n => visitMapLoop rest (some n) b
    else if k = "stakes" then
      match b with
      | some _ => Except.error (DecError.duplicateField "stakes")
      | none =>
        match decodeStakesArr v with
        | Except.error e => Except.error e
        | Except.ok l => visitMapLoop rest a (some l)
    else
      Except.error (DecError.unknownField k)

/-- Custom `Deserialize` for `StakesCollection`
(`stakes_collection.rs` lines 34-120): run the map loop, then require
`nextId` (first) and `stakes` to have been seen (`missing_field` otherwise). -/
def decodeCollection : Json → Except DecError StakesCollection
  | Json.obj entries =>
    (match visitMapLoop entries none none with
     | Except.error e => Except.error e
     | Except.ok (a, b) =>
       match a with
       | none => Except.error (DecError.missingField "nextId")
       | some n =>
         match b with
         | none => Except.error (DecError.missingField "stakes")
         | some l => Except.ok { stakes := l, next_id := ⟨n⟩ })
  | _ => Except.error DecError.invalidType

/-- The raw value of a `StakeId` fits in a `u32`, and so does any parent
reference: every `Stake` held by the Rust program satisfies this by typing. -/
def stakeOk (s : Stake) : Bool :=
  decide (s.stake_id.val < u32Mod) &&
    (match s.parent_id with
     | none => true
     | some p => decide (p.val < u32Mod))

/-- Every id stored in the collection and the counter itself fit in a `u32`:
every Rust `StakesCollection` satisfies this by typing. -/
def collOk (c : StakesCollection) : Bool :=
  decide (c.next_id.val < u32Mod) && c.stakes.all stakeOk

lemma replaceFirstById_split (l : List Stake) (s : Stake)
    (h : ∃ t ∈ l, t.stake_id = s.stake_id) :
    ∃ pre t post,
      l = pre ++ t :: post ∧
      (∀ u ∈ pre, u.stake_id ≠ s.stake_id) ∧
      t.stake_id = s.stake_id ∧
      replaceFirstById l s = some (pre ++ s :: post) := by
  induction l with
  | nil => simp at h
  | cons a as ih =>
    by_cases ha : a.stake_id = s.stake_id
    · exact ⟨[], a, as, by simp, by simp, ha, by simp [replaceFirstById, ha]⟩
    · obtain ⟨t, ht, hts⟩ := h
      rcases List.mem_cons.mp ht with rfl | htas
      · exact absurd hts ha
      · obtain ⟨pre, t', post, he, hpre, ht', hrep⟩ := ih ⟨t, htas, hts⟩
        exact ⟨a :: pre, t', post, by simp [he],
          by intro u hu; rcases List.mem_cons.mp hu with rfl | hu2; exact ha; exact hpre u hu2,
          ht', by simp [replaceFirstById, ha, hrep]⟩

lemma replaceFirstById_none (l : List Stake) (s : Stake)
    (h : ∀ t ∈ l, t.stake_id ≠ s.stake_id) :
    replaceFirstById l s = none := by
  induction l with
  | nil => rfl
  | cons a as ih =>
    have ha : a.stake_id ≠ s.stake_id := h a (List.mem_cons_self a as)
    simp [replaceFirstById, ha, ih (fun t ht => h t (List.mem_cons_of_mem a ht))]

lemma find?_middle (p : Stake → Bool) (pre : List Stake) (s : Stake) (post : List Stake)
    (hpre : ∀ u ∈ pre, p u = false) (hs : p s = true) :
    List.find? p (pre ++ s :: post) = some s := by
  induction pre with
  | nil => simp [List.find?, hs]
  | cons a as ih =>
    have := hpre a (List.mem_cons_self a as)
    simp only [List.cons_append, List.find?, this]
    exact ih (fun u hu => hpre u (List.mem_cons_of_mem a hu))

/-- C1: updating a stake whose id is already stored succeeds, the new value
replaces the old one at the same position (everything before it unmatched and
untouched, everything after it untouched), `get_by_id` then returns the new
value, and the length and counter are unchanged. -/
theorem update_stake_hit (c : StakesCollection) (s : Stake)
    (h : ∃ t ∈ c.stakes, t.stake_id = s.stake_id) :
    ∃ pre t post,
      c.stakes = pre ++ t :: post ∧
      (∀ u ∈ pre, u.stake_id ≠ s.stake_id) ∧
      t.stake_id = s.stake_id ∧
      (c.update_stake s).1 = Except.ok () ∧
      (c.update_stake s).2.stakes = pre ++ s :: post ∧
      (c.update_stake s).2.get_by_id s.stake_id = some s ∧
      (c.update_stake s).2.len = c.len ∧
      (c.update_stake s).2.next_id = c.next_id := by
  obtain ⟨pre, t, post, he, hpre, ht, hrep⟩ := replaceFirstById_split c.stakes s h
  refine ⟨pre, t, post, he, hpre, ht, ?_, ?_, ?_, ?_, ?_⟩
  · simp [StakesCollection.update_stake, hrep]
  · simp [StakesCollection.update_stake, hrep]
  · simp only [StakesCollection.update_stake, hrep, StakesCollection.get_by_id]
    exact find?_middle _ pre s post
      (fun u hu => by simpa using hpre u hu) (by simp)
  · simp only [StakesCollection.update_stake, hrep]
    simp [StakesCollection.len, he]
  · simp [StakesCollection.update_stake, hrep]

/-- Witness for `update_stake_hit` at a concrete one-stake collection. -/
theorem update_stake_hit_witness :
    ∃ pre t post,
      (StakesCollection.mk [Stake.mk ⟨1⟩ "First Stake" none false false (some "Note 1") 100 100] ⟨2⟩).stakes
        = pre ++ t :: post ∧
      (∀ u ∈ pre, u.stake_id ≠ (Stake.mk ⟨1⟩ "Renamed" none true false none 200 100).stake_id) ∧
      t.stake_id = (Stake.mk ⟨1⟩ "Renamed" none true false none 200 100).stake_id ∧
      ((StakesCollection.mk [Stake.mk ⟨1⟩ "First Stake" none false false (some "Note 1") 100 100] ⟨2⟩).update_stake
          (Stake.mk ⟨1⟩ "Renamed" none true false none 200 100)).1 = Except.ok () ∧
      ((StakesCollection.mk [Stake.mk ⟨1⟩ "First Stake" none false false (some "Note 1") 100 100] ⟨2⟩).update_stake
          (Stake.mk ⟨1⟩ "Renamed" none true false none 200 100)).2.stakes = pre ++ (Stake.mk ⟨1⟩ "Renamed" none true false none 200 100) :: post ∧
      ((StakesCollection.mk [Stake.mk ⟨1⟩ "First Stake" none false false (some "Note 1") 100 100] ⟨2⟩).update_stake
          (Stake.mk ⟨1⟩ "Renamed" none true false none 200 100)).2.get_by_id ⟨1⟩ = some (Stake.mk ⟨1⟩ "Renamed" none true false none 200 100) ∧
      ((StakesCollection.mk [Stake.mk ⟨1⟩ "First Stake" none false false (some "Note 1") 100 100] ⟨2⟩).update_stake
          (Stake.mk ⟨1⟩ "Renamed" none true false none 200 100)).2.len
        = (StakesCollection.mk [Stake.mk ⟨1⟩ "First Stake" none false false (some "Note 1") 100 100] ⟨2⟩).len ∧
      ((StakesCollection.mk [Stake.mk ⟨1⟩ "First Stake" none false false (some "Note 1") 100 100] ⟨2⟩).update_stake
          (Stake.mk ⟨1⟩ "Renamed" none true false none 200 100)).2.next_id = ⟨2⟩ :=
  update_stake_hit _ _ ⟨_, List.mem_singleton.mpr rfl, rfl⟩

/-- C2: updating with an id that matches no stored stake fails with
`StakeNotFound` and leaves the collection unchanged: length, stored stakes
(values and order) and `next_id` are all identical. -/
theorem update_stake_miss (c : StakesCollection) (s : Stake)
    (h : ∀ t ∈ c.stakes, t.stake_id ≠ s.stake_id) :
    (c.update_stake s).1 = Except.error StakeError.StakeNotFound ∧
    (c.update_stake s).2 = c ∧
    (c.update_stake s).2.len = c.len ∧
    (c.update_stake s).2.stakes = c.stakes ∧
    (c.update_stake s).2.next_id = c.next_id := by
  simp [StakesCollection.update_stake, replaceFirstById_none c.stakes s h]

/-- Witness for `update_stake_miss`: id 999 is absent from a one-stake
collection. -/
theorem update_stake_miss_witness :
    ((StakesCollection.mk [Stake.mk ⟨1⟩ "First Stake" none false false none 100 100] ⟨2⟩).update_stake
        (Stake.mk ⟨999⟩ "Ghost" none false false none 0 0)).1
      = Except.error StakeError.StakeNotFound ∧
    ((StakesCollection.mk [Stake.mk ⟨1⟩ "First Stake" none false false none 100 100] ⟨2⟩).update_stake
        (Stake.mk ⟨999⟩ "Ghost" none false false none 0 0)).2
      = StakesCollection.mk [Stake.mk ⟨1⟩ "First Stake" none false false none 100 100] ⟨2⟩ ∧
    ((StakesCollection.mk [Stake.mk ⟨1⟩ "First Stake" none false false none 100 100] ⟨2⟩).update_stake
        (Stake.mk ⟨999⟩ "Ghost" none false false none 0 0)).2.len
      = (StakesCollection.mk [Stake.mk ⟨1⟩ "First Stake" none false false none 100 100] ⟨2⟩).len ∧
    ((StakesCollection.mk [Stake.mk ⟨1⟩ "First Stake" none false false none 100 100] ⟨2⟩).update_stake
        (Stake.mk ⟨999⟩ "Ghost" none false false none 0 0)).2.stakes
      = [Stake.mk ⟨1⟩ "First Stake" none false false none 100 100] ∧
    ((StakesCollection.mk [Stake.mk ⟨1⟩ "First Stake" none false false none 100 100] ⟨2⟩).update_stake
        (Stake.mk ⟨999⟩ "Ghost" none false false none 0 0)).2.next_id = ⟨2⟩ :=
  update_stake_miss _ _ (by
    intro t ht
    rw [List.mem_singleton] at ht
    subst ht
    decide)

lemma leadsWith_iff (n : List Char) : ∀ h : List Char,
    leadsWith h n = true ↔ ∃ rest, h = n ++ rest := by
  induction n with
  | nil => intro h; simp [leadsWith]
  | cons b nb ih =>
    intro h
    cases h with
    | nil => simp [leadsWith]
    | cons a ha =>
      simp only [leadsWith, Bool.and_eq_true, decide_eq_true_eq, ih ha, List.cons_append,
        List.cons.injEq]
      constructor
      · rintro ⟨rfl, rest, rfl⟩; exact ⟨rest, rfl, rfl⟩
      · rintro ⟨rest, rfl, rfl⟩; exact ⟨rfl, rest, rfl⟩

lemma occursIn_iff (n h : List Char) :
    occursIn n h = true ↔ ∃ pre post, h = pre ++ n ++ post := by
  induction h with
  | nil =>
    simp only [occursIn, leadsWith_iff]
    constructor
    · rintro ⟨rest, hr⟩
      rcases List.append_eq_nil.mp hr.symm with ⟨rfl, rfl⟩
      exact ⟨[], [], rfl⟩
    · rintro ⟨pre, post, hp⟩
      rcases List.append_eq_nil.mp (List.append_eq_nil.mp hp.symm).1 with ⟨rfl, rfl⟩
      rcases List.append_eq_nil.mp hp.symm with ⟨-, rfl⟩
      exact ⟨[], rfl⟩
  | cons c hs ih =>
    simp only [occursIn, Bool.or_eq_true, leadsWith_iff, ih]
    constructor
    · rintro (⟨rest, hr⟩ | ⟨pre, post, rfl⟩)
      · exact ⟨[], rest, by simpa using hr⟩
      · exact ⟨c :: pre, post, by simp⟩
    · rintro ⟨pre, post, hp⟩
      cases pre with
      | nil => exact Or.inl ⟨post, by simpa using hp⟩
      | cons p ps =>
        simp only [List.cons_append, List.cons.injEq] at hp
        exact Or.inr ⟨ps, post, hp.2⟩

/-- C7: `search_by_name` preserves collection order (it returns a sublist of
the stored sequence), a stake is returned exactly when it is stored and its
lowercased name contains the lowercased whitespace-trimmed query as a
substring, and a query that trims to nothing returns every stake
unfiltered. -/
theorem search_by_name_spec (c : StakesCollection) (q : String) :
    (c.search_by_name q).Sublist c.stakes ∧
    (∀ s, s ∈ c.search_by_name q ↔
        s ∈ c.stakes ∧
        ∃ pre post, lowerChars s.stake_name.data =
          pre ++ lowerChars (trimChars q.data) ++ post) ∧
    (trimChars q.data = [] → c.search_by_name q = c.stakes) := by
  by_cases hq : trimChars q.data = []
  · refine ⟨?_, ?_, fun _ => ?_⟩
    · simp [StakesCollection.search_by_name, hq, lowerChars]
    · intro s
      simp only [StakesCollection.search_by_name, hq]
      simp [lowerChars]
      intro _
      exact ⟨s.stake_name.data.map Char.toLower, [], by simp⟩
    · simp [StakesCollection.search_by_name, hq, lowerChars]
  · have hne : (lowerChars (trimChars q.data)).isEmpty = false := by
      cases hl : trimChars q.data with
      | nil => exact absurd hl hq
      | cons a as => simp [lowerChars, hl]
    have hfil : c.search_by_name q =
        c.stakes.filter
          (fun stake => occursIn (lowerChars (trimChars q.data)) (lowerChars stake.stake_name.data)) := by
      simp [StakesCollection.search_by_name, hne]
    refine ⟨?_, ?_, fun hq2 => absurd hq2 hq⟩
    · rw [hfil]
      exact List.filter_sublist c.stakes
    · intro s
      rw [hfil, List.mem_filter, occursIn_iff]

/-- C8: a stored stake is in `completed_stakes` exactly when its `complete`
flag is set (even if also dropped), is in `active_stakes` exactly when both
flags are clear, and a complete-and-dropped stake is listed as completed but
never as active. -/
theorem stakes_partition (c : StakesCollection) (s : Stake) (h : s ∈ c.stakes) :
    (s ∈ c.completed_stakes ↔ s.complete = true) ∧
    (s ∈ c.active_stakes ↔ (s.complete = false ∧ s.dropped = false)) ∧
    (s.complete = true → s.dropped = true →
      s ∈ c.completed_stakes ∧ s ∉ c.active_stakes) := by
  refine ⟨?_, ?_, ?_⟩
  · simp [StakesCollection.completed_stakes, List.mem_filter, h]
  · simp only [StakesCollection.active_stakes, List.mem_filter, Stake.is_active,
      Bool.and_eq_true, Bool.not_eq_true']
    constructor
    · rintro ⟨-, hd, hc⟩; exact ⟨hc, hd⟩
    · rintro ⟨hc, hd⟩; exact ⟨h, hd, hc⟩
  · intro hc hd
    refine ⟨?_, ?_⟩
    · simp [StakesCollection.completed_stakes, List.mem_filter, h, hc]
    · simp [StakesCollection.active_stakes, List.mem_filter, Stake.is_active, hc, hd]

/-- Witness for `stakes_partition`: a complete-and-dropped stake is in the
completed list and not in the active list. -/
theorem stakes_partition_witness :
    Stake.mk ⟨3⟩ "Both" none true true none 7 7
        ∈ (StakesCollection.mk [Stake.mk ⟨3⟩ "Both" none true true none 7 7] ⟨4⟩).completed_stakes ∧
    Stake.mk ⟨3⟩ "Both" none true true none 7 7
        ∉ (StakesCollection.mk [Stake.mk ⟨3⟩ "Both" none true true none 7 7] ⟨4⟩).active_stakes :=
  (stakes_partition _ _ (List.mem_singleton.mpr rfl)).2.2 rfl rfl

/-- An interaction with the collection that can change its state between two
id requests: either a `generate_id` call or an `add_stake` insert. -/
inductive CollOp where
  | gen : CollOp
  | add : Stake → CollOp

/-- Number of `generate_id` calls in a sequence of operations. -/
def numGens : List CollOp → Nat
  | [] => 0
  | CollOp.gen :: ops => numGens ops + 1
  | CollOp.add _ :: ops => numGens ops

/-- Run a sequence of `generate_id` / `add_stake` calls against the
collection, collecting the ids returned by the `generate_id` calls in call
order. -/
def runOps : StakesCollection → List CollOp → StakesCollection × List StakeId
  | c, [] => (c, [])
  | c, CollOp.gen :: ops =>
    (let r := c.generate_id
     let rest := runOps r.2 ops
     (rest.1, r.1 :: rest.2))
  | c, CollOp.add s :: ops => runOps (c.add_stake s) ops

lemma runOps_ids (ops : List CollOp) : ∀ c : StakesCollection,
    c.next_id.val + numGens ops < u32Mod →
    (runOps c ops).2.map StakeId.val = List.range' c.next_id.val (numGens ops) 1 ∧
    (runOps c ops).1.next_id.val = c.next_id.val + numGens ops := by
  induction ops with
  | nil => intro c _; simp [runOps, numGens]
  | cons op ops ih =>
    intro c hlt
    cases op with
    | gen =>
      simp only [numGens] at hlt ⊢
      have hmod : (c.next_id.val + 1) % u32Mod = c.next_id.val + 1 :=
        Nat.mod_eq_of_lt (by omega)
      obtain ⟨hihl, hihr⟩ := ih { c with next_id := ⟨(c.next_id.val + 1) % u32Mod⟩ }
        (by simp only [hmod]; omega)
      simp only [hmod] at hihl hihr
      simp only [runOps, StakesCollection.generate_id, List.map_cons, hmod]
      refine ⟨?_, ?_⟩
      · rw [hihl]; rfl
      · rw [hihr]
        show c.next_id.val + 1 + numGens ops = c.next_id.val + (numGens ops + 1)
        omega
    | add s =>
      have hih := ih (c.add_stake s) (by simpa [numGens, StakesCollection.add_stake] using hlt)
      simpa [runOps, numGens, StakesCollection.add_stake] using hih

/-- C5 (amended): provided the `u32` counter does not overflow during the
sequence (`next_id` plus the number of `generate_id` calls stays below
`2^32`), any sequence of calls — with or without intervening inserts —
returns exactly the consecutive ids starting at the current `next_id`
(which makes each returned id the `next_id` at the moment of its call),
those ids are strictly increasing and pairwise distinct, the first returned
id is the starting `next_id`, and afterwards the counter equals the starting
`next_id` (that is, the first returned id) plus the number of calls. -/
theorem generate_id_sequence (c : StakesCollection) (ops : List CollOp)
    (h : c.next_id.val + numGens ops < u32Mod) :
    (runOps c ops).2.map StakeId.val = List.range' c.next_id.val (numGens ops) 1 ∧
    ((runOps c ops).2.map StakeId.val).Pairwise (fun a b => a < b) ∧
    (runOps c ops).2.Nodup ∧
    (0 < numGens ops → (runOps c ops).2.head? = some c.next_id) ∧
    (runOps c ops).1.next_id.val = c.next_id.val + numGens ops := by
  obtain ⟨hids, hnext⟩ := runOps_ids ops c h
  have hpw : ((runOps c ops).2.map StakeId.val).Pairwise (fun a b => a < b) := by
    rw [hids]; exact List.pairwise_lt_range' _ _ 1 (by omega)
  refine ⟨hids, hpw, ?_, ?_, hnext⟩
  · have : ((runOps c ops).2.map StakeId.val).Nodup := hpw.nodup
    exact (List.Nodup.of_map _ this)
  · intro hpos
    cases hids2 : (runOps c ops).2 with
    | nil => rw [hids2] at hids; simp at hids; omega
    | cons a t =>
      rw [hids2] at hids
      cases hn : numGens ops with
      | zero => omega
      | succ m =>
        rw [hn] at hids
        have : a.val = c.next_id.val := by
          have := hids
          simp only [List.map_cons, List.range'] at this
          exact (List.cons.injEq _ _ _ _ ▸ this).1
        cases a with
        | mk av =>
          cases hc : c.next_id with
          | mk cv => simp_all

/-- Counterexample to C5 as stated: starting from a collection whose counter
sits at the largest `u32` value, two `generate_id` calls return
`[2^32 - 1, 0]` — not strictly increasing — and the counter afterwards is 1,
not the first id plus 2. -/
theorem generate_id_sequence_cex :
    (runOps (StakesCollection.mk [] ⟨4294967295⟩) [CollOp.gen, CollOp.gen]).2
      = [⟨4294967295⟩, ⟨0⟩] ∧
    ¬ ((runOps (StakesCollection.mk [] ⟨4294967295⟩) [CollOp.gen, CollOp.gen]).2.map
        StakeId.val).Pairwise (fun a b => a < b) ∧
    (runOps (StakesCollection.mk [] ⟨4294967295⟩) [CollOp.gen, CollOp.gen]).1.next_id.val
      ≠ 4294967295 + 2 := by
  have he : (runOps (StakesCollection.mk [] ⟨4294967295⟩) [CollOp.gen, CollOp.gen]).2
      = [⟨4294967295⟩, ⟨0⟩] := by decide
  refine ⟨he, ?_, by decide⟩
  have hm : (runOps (StakesCollection.mk [] ⟨4294967295⟩) [CollOp.gen, CollOp.gen]).2.map
      StakeId.val = [4294967295, 0] := by rw [he]; rfl
  rw [hm]
  intro hpw
  have h0 := (List.pairwise_cons.mp hpw).1 0 (List.mem_singleton.mpr rfl)
  omega

/-- Witness for `generate_id_sequence`: three calls from a fresh collection
with an insert in between yield ids 1, 2, 3 and leave the counter at 4. -/
theorem generate_id_sequence_witness :
    (StakesCollection.new.next_id.val
        + numGens [CollOp.gen, CollOp.add (Stake.mk ⟨1⟩ "A" none false false none 0 0),
            CollOp.gen, CollOp.gen] < u32Mod) ∧
    ((runOps StakesCollection.new
        [CollOp.gen, CollOp.add (Stake.mk ⟨1⟩ "A" none false false none 0 0),
            CollOp.gen, CollOp.gen]).2.map StakeId.val
      = List.range' StakesCollection.new.next_id.val
          (numGens [CollOp.gen, CollOp.add (Stake.mk ⟨1⟩ "A" none false false none 0 0),
            CollOp.gen, CollOp.gen]) 1) ∧
    (runOps StakesCollection.new
        [CollOp.gen, CollOp.add (Stake.mk ⟨1⟩ "A" none false false none 0 0),
            CollOp.gen, CollOp.gen]).1.next_id.val = 4 :=
  ⟨by decide,
   (generate_id_sequence StakesCollection.new _ (by decide)).1,
   ((generate_id_sequence StakesCollection.new _ (by decide)).2.2.2.2).trans (by decide)⟩

/-- C10: `generate_id` returns the current counter and increments the wrapped
`u32` with an unchecked `+= 1`, i.e. modulo `2^32`; in particular a call made
when the counter sits at `2^32 - 1` returns that value and wraps the counter
to 0, after which a further call hands out 0, so two calls from that state
return `[2^32 - 1, 0]` — the strict-increase / previously-unissued guarantee
indeed needs the no-overflow precondition. -/
theorem generate_id_u32_wrap (c : StakesCollection) :
    (c.generate_id).1 = c.next_id ∧
    (c.generate_id).2.next_id.val = (c.next_id.val + 1) % u32Mod ∧
    (c.generate_id).2.stakes = c.stakes ∧
    ((StakesCollection.mk [] ⟨u32Mod - 1⟩).generate_id).1 = ⟨u32Mod - 1⟩ ∧
    ((StakesCollection.mk [] ⟨u32Mod - 1⟩).generate_id).2.next_id = ⟨0⟩ ∧
    (runOps (StakesCollection.mk [] ⟨u32Mod - 1⟩) [CollOp.gen, CollOp.gen]).2
      = [⟨u32Mod - 1⟩, ⟨0⟩] :=
  ⟨rfl, rfl, rfl, rfl, by decide, by decide⟩

lemma replaceFirstById_map_id (l : List Stake) (s : Stake) (l2 : List Stake)
    (h : replaceFirstById l s = some l2) :
    l2.map (fun t => t.stake_id) = l.map (fun t => t.stake_id) := by
  induction l generalizing l2 with
  | nil => simp [replaceFirstById] at h
  | cons a as ih =>
    by_cases ha : a.stake_id = s.stake_id
    · simp only [replaceFirstById, if_pos ha] at h
      cases h
      simp [ha]
    · simp only [replaceFirstById, if_neg ha] at h
      cases hr : replaceFirstById as s with
      | none => rw [hr] at h; cases h
      | some as2 =>
        rw [hr] at h
        cases h
        simp [ih as2 hr]

/-- States reachable from `new()` under the disciplined-caller protocol: the
caller only inserts stakes whose id was previously issued by `generate_id`
(hence below the current counter) and is not already stored, and the `u32`
counter never overflows; `update_stake` may be called with anything. -/
inductive ReachableD : StakesCollection → Prop where
  | base : ReachableD StakesCollection.new
  | gen {c : StakesCollection} : ReachableD c → c.next_id.val + 1 < u32Mod →
      ReachableD (c.generate_id).2
  | add {c : StakesCollection} (s : Stake) : ReachableD c →
      s.stake_id.val < c.next_id.val →
      (∀ t ∈ c.stakes, t.stake_id ≠ s.stake_id) →
      ReachableD (c.add_stake s)
  | update {c : StakesCollection} (s : Stake) : ReachableD c →
      ReachableD (c.update_stake s).2

/-- C6 (amended): in every state reachable from `new()` under the
disciplined-caller protocol of `ReachableD` (inserted ids were issued and are
fresh; the counter never overflows), every stored stake's id is below
`next_id` and no two stored stakes share an id. -/
theorem reachable_invariant (c : StakesCollection) (h : ReachableD c) :
    (∀ s ∈ c.stakes, s.stake_id.val < c.next_id.val) ∧
    (c.stakes.map (fun s => s.stake_id)).Nodup := by
  induction h with
  | base => simp [StakesCollection.new]
  | @gen c hr hlt ih =>
    have hmod : (c.next_id.val + 1) % u32Mod = c.next_id.val + 1 := Nat.mod_eq_of_lt hlt
    refine ⟨?_, ?_⟩
    · intro s hs
      have := ih.1 s (by simpa [StakesCollection.generate_id] using hs)
      simp only [StakesCollection.generate_id, hmod]
      omega
    · simpa [StakesCollection.generate_id] using ih.2
  | @add c s hr hlt hfresh ih =>
    refine ⟨?_, ?_⟩
    · intro t ht
      simp only [StakesCollection.add_stake, List.mem_append, List.mem_singleton] at ht
      rcases ht with ht | rfl
      · exact ih.1 t ht
      · exact hlt
    · simp only [StakesCollection.add_stake, List.map_append, List.map_cons, List.map_nil,
        List.nodup_append]
      refine ⟨ih.2, List.nodup_singleton _, ?_⟩
      intro x hx
      simp only [List.mem_map] at hx
      obtain ⟨t, ht, rfl⟩ := hx
      simp only [List.mem_singleton]
      exact hfresh t ht
  | @update c s hr ih =>
    cases hrep : replaceFirstById c.stakes s with
    | none =>
      simp only [StakesCollection.update_stake, hrep]
      exact ih
    | some l2 =>
      have hmap := replaceFirstById_map_id c.stakes s l2 hrep
      simp only [StakesCollection.update_stake, hrep]
      refine ⟨?_, ?_⟩
      · intro t ht
        have hid : t.stake_id ∈ l2.map (fun t => t.stake_id) := List.mem_map_of_mem _ ht
        rw [hmap] at hid
        simp only [List.mem_map] at hid
        obtain ⟨u, hu, he⟩ := hid
        have := ih.1 u hu
        simp only [he] at this ⊢
        exact this
      · show (l2.map (fun s => s.stake_id)).Nodup
        rw [hmap]
        exact ih.2

/-- Counterexample to C6 as stated: `add_stake` accepts an arbitrary
caller-supplied stake, so one public call on a fresh collection yields a
stored stake whose id 999 is not below `next_id = 1`. -/
theorem reachable_invariant_cex :
    ∃ s ∈ (StakesCollection.new.add_stake
        (Stake.mk ⟨999⟩ "Rogue" none false false none 0 0)).stakes,
      ¬ s.stake_id.val < (StakesCollection.new.add_stake
          (Stake.mk ⟨999⟩ "Rogue" none false false none 0 0)).next_id.val := by
  refine ⟨Stake.mk ⟨999⟩ "Rogue" none false false none 0 0, ?_, by decide⟩
  simp [StakesCollection.new, StakesCollection.add_stake]

/-- Witness for `reachable_invariant` at a concrete protocol-following state:
new, generate an id, insert a stake carrying it, update it. -/
theorem reachable_invariant_witness :
    (∀ s ∈ ((((StakesCollection.new.generate_id).2.add_stake
          (Stake.mk ⟨1⟩ "A" none false false none 0 0)).update_stake
          (Stake.mk ⟨1⟩ "A done" none true false none 5 0)).2).stakes,
        s.stake_id.val
          < ((((StakesCollection.new.generate_id).2.add_stake
              (Stake.mk ⟨1⟩ "A" none false false none 0 0)).update_stake
              (Stake.mk ⟨1⟩ "A done" none true false none 5 0)).2).next_id.val) ∧
    (((((StakesCollection.new.generate_id).2.add_stake
          (Stake.mk ⟨1⟩ "A" none false false none 0 0)).update_stake
          (Stake.mk ⟨1⟩ "A done" none true false none 5 0)).2).stakes.map
        (fun s => s.stake_id)).Nodup :=
  reachable_invariant _
    (ReachableD.update _
      (ReachableD.add _ (ReachableD.gen ReachableD.base (by decide)) (by decide)
        (by intro t ht; simp [StakesCollection.new, StakesCollection.generate_id] at ht)))

lemma decodeU32_nat (n : Nat) (h : n < u32Mod) : decodeU32 (Json.num n) = Except.ok n := by
  have h1 : (0 : Int) ≤ (n : Int) := Int.natCast_nonneg n
  have h2 : (n : Int) < (u32Mod : Int) := by exact_mod_cast h
  simp [decodeU32, h1, h2]

lemma stakeOk_id {s : Stake} (h : stakeOk s = true) : s.stake_id.val < u32Mod := by
  simp only [stakeOk, Bool.and_eq_true, decide_eq_true_eq] at h
  exact h.1

lemma stakeOk_parent {s : Stake} {p : StakeId} (h : stakeOk s = true)
    (hp : s.parent_id = some p) : p.val < u32Mod := by
  simp only [stakeOk, Bool.and_eq_true, decide_eq_true_eq] at h
  have h2 := h.2
  rw [hp] at h2
  simpa using h2

lemma decodeOptU32_num (i : Int) :
    decodeOptU32 (Json.num i) =
      (match decodeU32 (Json.num i) with
       | Except.ok n => Except.ok (some n)
       | Except.error e => Except.error e) := rfl

lemma decodeStakesArr_arr (l : List Json) :
    decodeStakesArr (Json.arr l) = decodeStakeList l := rfl

lemma decodeStakeList_cons (j : Json) (js : List Json) :
    decodeStakeList (j :: js) =
      (match decodeStake j with
       | Except.error e => Except.error e
       | Except.ok s =>
         match decodeStakeList js with
         | Except.error e => Except.error e
         | Except.ok rest => Except.ok (s :: rest)) := rfl

lemma decodeStake_obj (entries : List (String × Json)) :
    decodeStake (Json.obj entries) =
      (match stakeLoop entries {} with
       | Except.error e => Except.error e
       | Except.ok st => stakeFinalize st) := rfl

lemma stakeLoop_id {v : Json} {n : Nat} (hv : decodeU32 v = Except.ok n)
    (rest : List (String × Json)) (st : StakeBuild) (h : st.f_stake_id = none) :
    stakeLoop (("stake_id", v) :: rest) st
      = stakeLoop rest { st with f_stake_id := some n } := by
  simp [stakeLoop, h, hv]

lemma stakeLoop_sname {v : Json} {x : String} (hv : decodeStr v = Except.ok x)
    (rest : List (String × Json)) (st : StakeBuild) (h : st.f_stake_name = none) :
    stakeLoop (("stake_name", v) :: rest) st
      = stakeLoop rest { st with f_stake_name := some x } := by
  simp [stakeLoop, h, hv]

lemma stakeLoop_pid {v : Json} {x : Option Nat} (hv : decodeOptU32 v = Except.ok x)
    (rest : List (String × Json)) (st : StakeBuild) (h : st.f_parent_id = none) :
    stakeLoop (("parent_id", v) :: rest) st
      = stakeLoop rest { st with f_parent_id := some x } := by
  simp [stakeLoop, h, hv]

lemma stakeLoop_complete {v : Json} {x : Bool} (hv : decodeBool v = Except.ok x)
    (rest : List (String × Json)) (st : StakeBuild) (h : st.f_complete = none) :
    stakeLoop (("complete", v) :: rest) st
      = stakeLoop rest { st with f_complete := some x } := by
  simp [stakeLoop, h, hv]

lemma stakeLoop_dropped {v : Json} {x : Bool} (hv : decodeBool v = Except.ok x)
    (rest : List (String × Json)) (st : StakeBuild) (h : st.f_dropped = none) :
    stakeLoop (("dropped", v) :: rest) st
      = stakeLoop rest { st with f_dropped := some x } := by
  simp [stakeLoop, h, hv]

lemma stakeLoop_note {v : Json} {x : Option String} (hv : decodeOptStr v = Except.ok x)
    (rest : List (String × Json)) (st : StakeBuild) (h : st.f_note = none) :
    stakeLoop (("note", v) :: rest) st
      = stakeLoop rest { st with f_note := some x } := by
  simp [stakeLoop, h, hv]

lemma stakeLoop_dmod {v : Json} {x : Int} (hv : decodeTs v = Except.ok x)
    (rest : List (String × Json)) (st : StakeBuild) (h : st.f_date_modified = none) :
    stakeLoop (("date_modified", v) :: rest) st
      = stakeLoop rest { st with f_date_modified := some x } := by
  simp [stakeLoop, h, hv]

lemma stakeLoop_dcre {v : Json} {x : Int} (hv : decodeTs v = Except.ok x)
    (rest : List (String × Json)) (st : StakeBuild) (h : st.f_date_created = none) :
    stakeLoop (("date_created", v) :: rest) st
      = stakeLoop rest { st with f_date_created := some x } := by
  simp [stakeLoop, h, hv]

lemma decodeStake_encodeStake (s : Stake) (h : stakeOk s = true) :
    decodeStake (encodeStake s) = Except.ok s := by
  have hid := stakeOk_id h
  have hpar : ∀ p : StakeId, s.parent_id = some p → p.val < u32Mod :=
    fun p hp => stakeOk_parent h hp
  obtain ⟨⟨idv⟩, nm, pid, cp, dr, nt, dm, dc⟩ := s
  have hu : decodeU32 (encodeU32 idv) = Except.ok idv := decodeU32_nat idv hid
  have hpid : decodeOptU32 (encodeOptId pid)
      = Except.ok (pid.map (fun p => p.val)) := by
    rcases pid with _ | pv
    · rfl
    · have hp : pv.val < u32Mod := hpar pv rfl
      rw [encodeOptId, decodeOptU32_num, decodeU32_nat _ hp]
      rfl
  have hnt : decodeOptStr (encodeOptStr nt) = Except.ok nt := by
    rcases nt with _ | t <;> rfl
  have hnm : decodeStr (Json.str nm) = Except.ok nm := rfl
  have hcp : decodeBool (Json.bool cp) = Except.ok cp := rfl
  have hdr : decodeBool (Json.bool dr) = Except.ok dr := rfl
  have hdm : decodeTs (encodeTs dm) = Except.ok dm := rfl
  have hdc : decodeTs (encodeTs dc) = Except.ok dc := rfl
  simp only [encodeStake]
  rw [decodeStake_obj, stakeLoop_id hu _ _ rfl, stakeLoop_sname hnm _ _ rfl,
    stakeLoop_pid hpid _ _ rfl, stakeLoop_complete hcp _ _ rfl,
    stakeLoop_dropped hdr _ _ rfl, stakeLoop_note hnt _ _ rfl,
    stakeLoop_dmod hdm _ _ rfl, stakeLoop_dcre hdc _ _ rfl]
  rcases pid with _ | pv <;> rfl

lemma decodeStakeList_map (l : List Stake) (h : ∀ s ∈ l, stakeOk s = true) :
    decodeStakeList (l.map encodeStake) = Except.ok l := by
  induction l with
  | nil => rfl
  | cons a as ih =>
    have ha := decodeStake_encodeStake a (h a (List.mem_cons_self a as))
    have hr := ih (fun s hs => h s (List.mem_cons_of_mem a hs))
    rw [List.map_cons, decodeStakeList_cons, ha, hr]

lemma visitMapLoop_next {v : Json} {n : Nat} (hv : decodeU32 v = Except.ok n)
    (rest : List (String × Json)) (b : Option (List Stake)) :
    visitMapLoop (("nextId", v) :: rest) none b = visitMapLoop rest (some n) b := by
  simp [visitMapLoop, hv]

lemma visitMapLoop_stakes {v : Json} {l : List Stake} (hv : decodeStakesArr v = Except.ok l)
    (rest : List (String × Json)) (a : Option Nat) :
    visitMapLoop (("stakes", v) :: rest) a none = visitMapLoop rest a (some l) := by
  simp [visitMapLoop, hv]

lemma decodeCollection_obj (entries : List (String × Json)) :
    decodeCollection (Json.obj entries) =
      (match visitMapLoop entries none none with
       | Except.error e => Except.error e
       | Except.ok (a, b) =>
         match a with
         | none => Except.error (DecError.missingField "nextId")
         | some n =>
           match b with
           | none => Except.error (DecError.missingField "stakes")
           | some l => Except.ok { stakes := l, next_id := ⟨n⟩ }) := rfl

/-- C3: decoding the document produced by encoding any (`u32`-representable,
which is every Rust value) collection returns the original collection —
same `next_id`, same stakes in the same order, every field preserved. -/
theorem encode_decode_roundtrip (c : StakesCollection) (h : collOk c = true) :
    decodeCollection (encodeCollection c) = Except.ok c := by
  obtain ⟨stakes, ⟨nv⟩⟩ := c
  simp only [collOk, Bool.and_eq_true, decide_eq_true_eq, List.all_eq_true] at h
  have h1 : decodeU32 (encodeU32 nv) = Except.ok nv := decodeU32_nat nv h.1
  have h2 : decodeStakesArr (Json.arr (stakes.map encodeStake)) = Except.ok stakes := by
    rw [decodeStakesArr_arr]
    exact decodeStakeList_map stakes h.2
  have hl : visitMapLoop
      [("nextId", encodeU32 nv), ("stakes", Json.arr (stakes.map encodeStake))] none none
      = Except.ok (some nv, some stakes) := by
    rw [visitMapLoop_next h1, visitMapLoop_stakes h2]
    rfl
  simp only [encodeCollection]
  rw [decodeCollection_obj, hl]

/-- Sample collection mirroring the repository's round-trip unit test:
`next_id = 5` and three stakes (plain, complete-with-parent, dropped). -/
def sampleColl : StakesCollection :=
  StakesCollection.mk
    [Stake.mk ⟨1⟩ "First Stake" none false false (some "Note 1") 1721377800 1721377800,
     Stake.mk ⟨2⟩ "Second Stake" (some ⟨1⟩) true false none 1721377800 1721377800,
     Stake.mk ⟨3⟩ "Third Stake" (some ⟨2⟩) false true (some "Note 3") 1721377800 1721377800]
    ⟨5⟩

/-- Witness for `encode_decode_roundtrip` on `sampleColl`. -/
theorem encode_decode_roundtrip_witness :
    collOk sampleColl = true ∧
    decodeCollection (encodeCollection sampleColl) = Except.ok sampleColl :=
  ⟨by decide, encode_decode_roundtrip sampleColl (by decide)⟩

lemma visitMapLoop_cons_next (v : Json) (rest : List (String × Json))
    (a : Option Nat) (b : Option (List Stake)) :
    visitMapLoop (("nextId", v) :: rest) a b =
      (match a with
       | some _ => Except.error (DecError.duplicateField "nextId")
       | none =>
         match decodeU32 v with
         | Except.error e => Except.error e
         | Except.ok n => visitMapLoop rest (some n) b) := by
  simp [visitMapLoop]

lemma visitMapLoop_cons_stakes (v : Json) (rest : List (String × Json))
    (a : Option Nat) (b : Option (List Stake)) :
    visitMapLoop (("stakes", v) :: rest) a b =
      (match b with
       | some _ => Except.error (DecError.duplicateField "stakes")
       | none =>
         match decodeStakesArr v with
         | Except.error e => Except.error e
         | Except.ok l => visitMapLoop rest a (some l)) := by
  simp [visitMapLoop]

lemma visitMapLoop_cons_other {k : String} (hk1 : k ≠ "nextId") (hk2 : k ≠ "stakes")
    (v : Json) (rest : List (String × Json)) (a : Option Nat) (b : Option (List Stake)) :
    visitMapLoop ((k, v) :: rest) a b = Except.error (DecError.unknownField k) := by
  simp [visitMapLoop, hk1, hk2]

lemma visitMapLoop_ok_facts :
    ∀ (entries : List (String × Json)) (a : Option Nat) (b : Option (List Stake))
      (a2 : Option Nat) (b2 : Option (List Stake)),
      visitMapLoop entries a b = Except.ok (a2, b2) →
      (∀ k ∈ entries.map Prod.fst, k = "nextId" ∨ k = "stakes") ∧
      (a.isSome = true → (entries.map Prod.fst).count "nextId" = 0) ∧
      ((entries.map Prod.fst).count "nextId" ≤ 1) ∧
      (b.isSome = true → (entries.map Prod.fst).count "stakes" = 0) ∧
      ((entries.map Prod.fst).count "stakes" ≤ 1) ∧
      (a2.isSome = true ↔ (a.isSome = true ∨ "nextId" ∈ entries.map Prod.fst)) ∧
      (b2.isSome = true ↔ (b.isSome = true ∨ "stakes" ∈ entries.map Prod.fst)) := by
  intro entries
  induction entries with
  | nil =>
    intro a b a2 b2 h
    have h2 : (Except.ok (a, b) : Except DecError (Option Nat × Option (List Stake)))
        = Except.ok (a2, b2) := h
    have h3 : a = a2 ∧ b = b2 := by
      have := Except.ok.inj h2
      exact ⟨congrArg Prod.fst this, congrArg Prod.snd this⟩
    obtain ⟨rfl, rfl⟩ := h3
    simp
  | cons e rest ih =>
    obtain ⟨k, v⟩ := e
    intro a b a2 b2 h
    by_cases hk1 : k = "nextId"
    · subst hk1
      rw [visitMapLoop_cons_next] at h
      cases a with
      | some x => exact Except.noConfusion h
      | none =>
        cases hv : decodeU32 v with
        | error e2 => rw [hv] at h; exact Except.noConfusion h
        | ok n =>
          rw [hv] at h
          obtain ⟨hall, hn0, hn1, hs0, hs1, hi1, hi2⟩ := ih (some n) b a2 b2 h
          have hcnt : (rest.map Prod.fst).count "nextId" = 0 := hn0 rfl
          refine ⟨?_, ?_, ?_, ?_, ?_, ?_, ?_⟩
          · intro k2 hk2
            rw [List.map_cons] at hk2
            rcases List.mem_cons.mp hk2 with rfl | hm
            · exact Or.inl rfl
            · exact hall k2 hm
          · intro hsome; simp at hsome
          · simp [List.count_cons, hcnt]
          · intro hsome
            have := hs0 hsome
            simp [List.count_cons, this]
          · simpa [List.count_cons] using hs1
          · have ha2 : a2.isSome = true := hi1.mpr (Or.inl rfl)
            simp [ha2, List.mem_cons]
          · rw [hi2]
            simp [List.mem_cons]
    · by_cases hk2 : k = "stakes"
      · subst hk2
        rw [visitMapLoop_cons_stakes] at h
        cases b with
        | some x => exact Except.noConfusion h
        | none =>
          cases hv : decodeStakesArr v with
          | error e2 => rw [hv] at h; exact Except.noConfusion h
          | ok l =>
            rw [hv] at h
            obtain ⟨hall, hn0, hn1, hs0, hs1, hi1, hi2⟩ := ih a (some l) a2 b2 h
            have hcnt : (rest.map Prod.fst).count "stakes" = 0 := hs0 rfl
            refine ⟨?_, ?_, ?_, ?_, ?_, ?_, ?_⟩
            · intro k2 hk3
              rw [List.map_cons] at hk3
              rcases List.mem_cons.mp hk3 with rfl | hm
              · exact Or.inr rfl
              · exact hall k2 hm
            · intro hsome
              have := hn0 hsome
              simp [List.count_cons, this]
            · simpa [List.count_cons] using hn1
            · intro hsome; simp at hsome
            · simp [List.count_cons, hcnt]
            · rw [hi1]
              simp [List.mem_cons]
            · have hb2 : b2.isSome = true := hi2.mpr (Or.inl rfl)
              simp [hb2, List.mem_cons]
      · rw [visitMapLoop_cons_other hk1 hk2] at h
        exact Except.noConfusion h

lemma decodeCollection_ok_loop (entries : List (String × Json)) (col : StakesCollection)
    (h : decodeCollection (Json.obj entries) = Except.ok col) :
    ∃ n l, visitMapLoop entries none none = Except.ok (some n, some l) := by
  rw [decodeCollection_obj] at h
  cases hv : visitMapLoop entries none none with
  | error e => rw [hv] at h; exact Except.noConfusion h
  | ok ab =>
    obtain ⟨a, b⟩ := ab
    rw [hv] at h
    cases a with
    | none => exact Except.noConfusion h
    | some n =>
      cases b with
      | none => exact Except.noConfusion h
      | some l => exact ⟨n, l, rfl⟩

/-- C4: decoding a collection document fails whenever a top-level `nextId` or
`stakes` field is missing, either appears more than once, or any other
top-level field is present; and a successful decode implies the document
carried exactly one `nextId` and exactly one `stakes` field and nothing
else. -/
theorem decode_requires_exact_fields (entries : List (String × Json)) :
    (("nextId" ∉ entries.map Prod.fst) →
      (decodeCollection (Json.obj entries)).isOk = false) ∧
    (("stakes" ∉ entries.map Prod.fst) →
      (decodeCollection (Json.obj entries)).isOk = false) ∧
    (2 ≤ (entries.map Prod.fst).count "nextId" →
      (decodeCollection (Json.obj entries)).isOk = false) ∧
    (2 ≤ (entries.map Prod.fst).count "stakes" →
      (decodeCollection (Json.obj entries)).isOk = false) ∧
    (∀ k ∈ entries.map Prod.fst, (k ≠ "nextId" ∧ k ≠ "stakes") →
      (decodeCollection (Json.obj entries)).isOk = false) ∧
    (∀ col, decodeCollection (Json.obj entries) = Except.ok col →
      (entries.map Prod.fst).count "nextId" = 1 ∧
      (entries.map Prod.fst).count "stakes" = 1 ∧
      ∀ k ∈ entries.map Prod.fst, k = "nextId" ∨ k = "stakes") := by
  have main : ∀ col, decodeCollection (Json.obj entries) = Except.ok col →
      (entries.map Prod.fst).count "nextId" = 1 ∧
      (entries.map Prod.fst).count "stakes" = 1 ∧
      (∀ k ∈ entries.map Prod.fst, k = "nextId" ∨ k = "stakes") := by
    intro col h
    obtain ⟨n, l, hv⟩ := decodeCollection_ok_loop entries col h
    obtain ⟨hall, _, hle1, _, hle2, hi1, hi2⟩ :=
      visitMapLoop_ok_facts entries none none _ _ hv
    have hm1 : "nextId" ∈ entries.map Prod.fst := by
      rcases hi1.mp (by simp) with h0 | hm
      · simp at h0
      · exact hm
    have hm2 : "stakes" ∈ entries.map Prod.fst := by
      rcases hi2.mp (by simp) with h0 | hm
      · simp at h0
      · exact hm
    exact ⟨Nat.le_antisymm hle1 (List.count_pos_iff.mpr hm1),
      Nat.le_antisymm hle2 (List.count_pos_iff.mpr hm2), hall⟩
  refine ⟨?_, ?_, ?_, ?_, ?_, main⟩
  · intro hcond
    cases hr : decodeCollection (Json.obj entries) with
    | error e => rfl
    | ok col =>
      obtain ⟨hc1, -, -⟩ := main col hr
      exact absurd (List.count_pos_iff.mp (by rw [hc1]; exact Nat.one_pos)) hcond
  · intro hcond
    cases hr : decodeCollection (Json.obj entries) with
    | error e => rfl
    | ok col =>
      obtain ⟨-, hc2, -⟩ := main col hr
      exact absurd (List.count_pos_iff.mp (by rw [hc2]; exact Nat.one_pos)) hcond
  · intro hcond
    cases hr : decodeCollection (Json.obj entries) with
    | error e => rfl
    | ok col =>
      obtain ⟨hc1, -, -⟩ := main col hr
      omega
  · intro hcond
    cases hr : decodeCollection (Json.obj entries) with
    | error e => rfl
    | ok col =>
      obtain ⟨-, hc2, -⟩ := main col hr
      omega
  · intro k hk hne
    cases hr : decodeCollection (Json.obj entries) with
    | error e => rfl
    | ok col =>
      obtain ⟨-, -, hc3⟩ := main col hr
      rcases hc3 k hk with rfl | rfl
      · exact absurd rfl hne.1
      · exact absurd rfl hne.2

/-- Witness for `decode_requires_exact_fields`: a document missing `stakes`
is rejected, and so is one carrying an unrecognized `extra` field. -/
theorem decode_requires_exact_fields_witness :
    (decodeCollection (Json.obj [("nextId", Json.num 1)])).isOk = false ∧
    (decodeCollection (Json.obj
      [("nextId", Json.num 1), ("stakes", Json.arr []), ("extra", Json.null)])).isOk
      = false :=
  ⟨(decode_requires_exact_fields [("nextId", Json.num 1)]).2.1 (by decide),
   (decode_requires_exact_fields
      [("nextId", Json.num 1), ("stakes", Json.arr []), ("extra", Json.null)]).2.2.2.2.1
     "extra" (by decide) ⟨by decide, by decide⟩⟩

/-- The stake entity carried twice by `dupDoc`: id 7, which is not below the
document's `nextId` of 2. -/
def dupStake : Stake :=
  Stake.mk ⟨7⟩ "Dup" none false false none 0 0

/-- A structurally well-formed collection document (exactly one `nextId` and
one `stakes` field) whose stake list repeats id 7 while `nextId` is 2. -/
def dupDoc : Json :=
  Json.obj
    [("nextId", Json.num 2),
     ("stakes", Json.arr
       [Json.obj
          [("stake_id", Json.num 7), ("stake_name", Json.str "Dup"),
           ("parent_id", Json.null), ("complete", Json.bool false),
           ("dropped", Json.bool false), ("note", Json.null),
           ("date_modified", Json.num 0), ("date_created", Json.num 0)],
        Json.obj
          [("stake_id", Json.num 7), ("stake_name", Json.str "Dup"),
           ("parent_id", Json.null), ("complete", Json.bool false),
           ("dropped", Json.bool false), ("note", Json.null),
           ("date_modified", Json.num 0), ("date_created", Json.num 0)]])]

/-- C9: decoding performs no semantic validation beyond field structure — the
structurally well-formed `dupDoc` decodes successfully into a collection
holding its two entries verbatim, even though they share id 7 and that id is
not below the decoded `next_id` of 2, violating both collection
invariants. -/
theorem decode_no_semantic_validation :
    decodeCollection dupDoc = Except.ok (StakesCollection.mk [dupStake, dupStake] ⟨2⟩) ∧
    (StakesCollection.mk [dupStake, dupStake] ⟨2⟩).stakes.map (fun s => s.stake_id)
      = [⟨7⟩, ⟨7⟩] ∧
    ¬ ((StakesCollection.mk [dupStake, dupStake] ⟨2⟩).stakes.map
        (fun s => s.stake_id)).Nodup ∧
    ∃ s ∈ (StakesCollection.mk [dupStake, dupStake] ⟨2⟩).stakes,
      ¬ s.stake_id.val < (StakesCollection.mk [dupStake, dupStake] ⟨2⟩).next_id.val := by
  refine ⟨rfl, rfl, by decide, dupStake, List.mem_cons_self _ _, by decide⟩

/-- Witness for `search_by_name_spec`: an all-whitespace query returns the
whole collection. -/
theorem search_by_name_spec_witness :
    (StakesCollection.mk
        [Stake.mk ⟨1⟩ "Website Redesign" none false false none 0 0] ⟨2⟩).search_by_name "   "
      = [Stake.mk ⟨1⟩ "Website Redesign" none false false none 0 0] :=
  (search_by_name_spec
      (StakesCollection.mk
        [Stake.mk ⟨1⟩ "Website Redesign" none false false none 0 0] ⟨2⟩) "   ").2.2
    (by decide)
